import Mathlib

/-!
Shallow embedding of the dependency-pipelines incremental build engine
(src/lib/rules.ts, src/lib/pipelines.ts, src/lib/asserts.ts and the fsx
filesystem facade), together with theorems settling the specification
claims about rule matching, dependency generation and staleness-driven
execution.

Modelling conventions: JS Dates are natural numbers (`getTime` values),
byte buffers are lists of naturals, promises hold their eventual outcome
as an `Except` value, thrown `Error(message)` objects are `Err.msg`,
rejected I/O promises are `Err.io`, and the unbounded recursion of
`Pipeline.exec` is made total with an explicit fuel argument.
-/

deriving instance DecidableEq for Except

namespace DepPipelines

/-- A JS byte buffer, as the list of its byte values. -/
abbrev Buffer := List Nat

/-- UTF-8 encoding, as performed by `Buffer.from(s, 'utf-8')`. -/
def utf8Encode (s : String) : Buffer :=
  s.toUTF8.toList.map (fun b => b.toNat)

/-- A JS I/O error object, identified by its error code. -/
inductive IOErr where
  | enoent
  | eacces
  | other (code : String)
deriving DecidableEq

/-- An error escaping a promise chain: a rejected I/O promise, a thrown
`new Error(message)`, or exhaustion of the recursion fuel (modelling the
unbounded recursion of the real `exec`). -/
inductive Err where
  | io (e : IOErr)
  | msg (s : String)
  | outOfFuel
deriving DecidableEq

/-- The slice of `fs.Stats` the engine consumes: the mtime. -/
structure Stats where
  mtime : Nat
deriving DecidableEq

/-- The filesystem collaborator: outcomes of the underlying `fs.stat` and
`fs.readFile` callbacks for each path. -/
structure FS where
  statF : String → Except IOErr Stats
  readF : String → Except IOErr Buffer

/-- fsx.mtimeSafe (src/unnamed/part_000 lines 162-172): resolves `null` on
ANY stat error, never rejecting. -/
def FS.mtimeSafe (fs : FS) (path : String) : Option Nat :=
  match fs.statF path with
  | .error _ => none
  | .ok st => some st.mtime

/-- A successful RegExp exec result: `endPos` is the index one past the
match (it becomes `lastIndex` for global patterns) and `grps` is the match
array `m[0], m[1], ...`, with `none` for an undefined group. -/
structure RMatch where
  endPos : Nat
  grps : List (Option String)
deriving DecidableEq

/-- A JS RegExp object: a matching function from a start index, plus the
`global` flag. Its mutable `lastIndex` lives on the containing `Rule`. -/
structure JsRegExp where
  global : Bool
  matchFrom : String → Nat → Option RMatch

/-- RegExp.prototype.exec state semantics: a non-global regex searches from
index 0 and leaves `lastIndex` alone; a global regex searches from
`lastIndex`, sets it past the match on success and resets it to 0 on
failure. -/
def regexExecJs (r : JsRegExp) (lastIndex : Nat) (s : String) : Option RMatch × Nat :=
  if r.global then
    match r.matchFrom s lastIndex with
    | some m => (some m, m.endPos)
    | none => (none, 0)
  else
    (r.matchFrom s 0, lastIndex)

/-- RegExp.prototype.test: the same state effects as `exec`, with a boolean
result. -/
def regexTestJs (r : JsRegExp) (lastIndex : Nat) (s : String) : Bool × Nat :=
  match regexExecJs r lastIndex s with
  | (m, li) => (m.isSome, li)

/-- rules.ts NamedDependency: an optional role name plus a target value. -/
structure NamedDep where
  name : Option String
  value : String
deriving DecidableEq

/-- jsParseInt with radix 10 on the strings this engine feeds it: the
maximal leading digit run, or NaN (`none`) when there is none. -/
def jsParseInt (s : String) : Option Nat :=
  let ds := s.toList.takeWhile Char.isDigit
  if ds.isEmpty then none
  else some (ds.foldl (fun n c => n * 10 + (c.toNat - 48)) 0)

/-- The value `String.prototype.replace` inserts for the callback result
`m[i]`: out-of-range or undefined entries stringify as "undefined". -/
def groupStr (m : RMatch) (idx : Option Nat) : String :=
  match idx with
  | none => "undefined"
  | some i =>
    match m.grps.get? i with
    | some (some s) => s
    | _ => "undefined"

/-- Whether the first list is a leading segment of the second. -/
def isPrefixL : List Char → List Char → Bool
  | [], _ => true
  | _ :: _, [] => false
  | p :: ps, c :: cs => p == c && isPrefixL ps cs

/-- `s.replace(pat, fn)` with a STRING pattern replaces only the first
occurrence of `pat` in `s` (and an empty pattern matches at position 0). -/
def replaceFirstL (pat rep : List Char) : List Char → List Char
  | [] => if pat.isEmpty then rep else []
  | c :: cs =>
    if isPrefixL pat (c :: cs) then rep ++ (c :: cs).drop pat.length
    else c :: replaceFirstL pat rep cs

/-- The string branch of SimpleDependencyGeneratorAdapter.create (rules.ts
line 110): `template.replace(input, match => m[parseInt(match, 10)])`.
The search pattern handed to `replace` is the TARGET STRING itself, so the
only substitution that can happen is of an occurrence of the target string
inside the template, and the inserted value is `m[parseInt(target)]`. -/
def stringTemplateSubst (template input : String) (m : RMatch) : String :=
  ⟨replaceFirstL input.toList (groupStr m (jsParseInt input)).toList template.toList⟩

/-- What a computed DependencyGenerator may return (rules.ts line 92):
null, a bare string, a single dependency-like value, or an iterator of
nullable strings and dependency-likes. -/
inductive GenResult where
  | nil
  | str (s : String)
  | dep (d : NamedDep)
  | seq (items : List (Option (String ⊕ NamedDep)))

/-- The dependency-generator adapters of rules.ts: the Simple adapter over
a string template or a computed function, the NoDependencies singleton,
and the Composite concatenation adapter. -/
inductive DepGen where
  | simpleStr (template : String)
  | simpleFn (f : String → RMatch → GenResult)
  | noDeps
  | comp (a b : DepGen)

/-- `create(input, m)` of the adapters (rules.ts 108-138, 169-172,
205-208), with the lazy iterator fully evaluated — exec consumes it
eagerly through `Array.from`. Strings coerce to unnamed dependencies and
null items are skipped. -/
def depGenCreate : DepGen → String → RMatch → List NamedDep
  | .simpleStr t, input, m => [⟨none, stringTemplateSubst t input m⟩]
  | .simpleFn f, input, m =>
    match f input m with
    | .nil => []
    | .str s => [⟨none, s⟩]
    | .dep d => [d]
    | .seq items =>
      items.filterMap (fun o =>
        match o with
        | none => none
        | some (.inl s) => some ⟨none, s⟩
        | some (.inr d) => some d)
  | .noDeps, _, _ => []
  | .comp a b, input, m => depGenCreate a input m ++ depGenCreate b input m

/-- A resolved entry. FileEntry fields are optional, as in the duck-typed
TS interfaces; `contents` and `mtimeP` hold the eventual outcome of the
corresponding promise, with `mtimeP = none` for an entry object that has
no mtime field at all. -/
structure Entry where
  name : String
  contents : Except IOErr Buffer
  mtimeP : Option (Except IOErr Nat) := none
  path : Option String := none
  originalPath : Option String := none
deriving DecidableEq

/-- SimpleFileEntry constructor (pipelines.ts 18-26): absent constructor
arguments fall back to lazy fsx reads of the original path. -/
def mkSimpleFileEntry (fs : FS) (nm pth : String) (contents : Option Buffer)
    (mtime : Option Nat) : Entry :=
  { name := nm
    contents :=
      match contents with
      | some c => .ok c
      | none => fs.readF pth
    mtimeP := some (match mtime with
      | some t => .ok t
      | none => (fs.statF pth).map Stats.mtime)
    path := some pth
    originalPath := some pth }

/-- The NamedEntry pairs exec accumulates per dependency. -/
structure NamedEntry where
  name : Option String
  entry : Entry
deriving DecidableEq

/-- Values storable on the context object; JS objects are open
string-keyed records. -/
inductive PVal where
  | pvStr (s : String)
  | pvEntry (e : Entry)
  | pvEntries (l : List Entry)
  | pvTime (t : Except IOErr Nat)
deriving DecidableEq

/-- The property record of a JS object. -/
abbrev Props := List (String × PVal)

/-- JS property assignment: overwrite an existing key or append. -/
def setP : Props → String → PVal → Props
  | [], k, v => [(k, v)]
  | (k0, v0) :: rest, k, v =>
    if k0 = k then (k, v) :: rest else (k0, v0) :: setP rest k v

/-- JS property read. -/
def getP : Props → String → Option PVal
  | [], _ => none
  | (k0, v0) :: rest, k => if k0 = k then some v0 else getP rest k

/-- JS truthiness of a nullable string (both `if (item.name)` and
`name || alt` treat null and "" as falsy). -/
def truthyName : Option String → Bool
  | none => false
  | some s => s != ""

/-- `name || alt` on a nullable string. -/
def jsOrStr (name : Option String) (alt : String) : String :=
  match name with
  | some s => if s == "" then alt else s
  | none => alt

/-- One step of SimpleContext.composeMTime's per-entry mapping:
`(await getMTime(e)) || new Date()` is the entry's mtime promise when the
field exists (dates are truthy), and "now" otherwise. -/
def entryMTimeOrNow (now : Nat) (e : Entry) : Except IOErr Nat :=
  match e.mtimeP with
  | some t => t
  | none => .ok now

/-- The larger of two naturals. -/
def natMax (x y : Nat) : Nat := if x ≤ y then y else x

/-- Fold of `natMax` over a list with a starting value; the descending
sort plus head extraction of composeMTime computes exactly this. -/
def maxOfList (x : Nat) (xs : List Nat) : Nat :=
  xs.foldl natMax x

/-- `Promise.all(entries.map(...))` over the per-entry mtimes, in array
order: the list of all resolved mtimes, or the first rejection. -/
def mapMTimes (now : Nat) : List Entry → Except IOErr (List Nat)
  | [] => .ok []
  | e :: rest => do
    let t ← entryMTimeOrNow now e
    let ts ← mapMTimes now rest
    .ok (t :: ts)

/-- SimpleContext.composeMTime (pipelines.ts 36-43), applied to whatever
the `entries` property holds at construction time: any value whose
`length` is falsy (an empty array, or a non-array object such as a single
entry) gives "now"; a non-empty entry array gives the newest of the
entries' mtimes (the descending sort plus head extraction), entries
without an mtime counting as "now". -/
def composeMTimeJs (now : Nat) (v : Option PVal) : Except IOErr Nat :=
  match v with
  | some (.pvEntries (e :: es)) => do
    let t ← entryMTimeOrNow now e
    let ts ← mapMTimes now es
    .ok (maxOfList t ts)
  | _ => .ok now

/-- The context object just before the named-dependency bindings are
added: `input`, the optional `name`, and the `entries` array (SimpleContext
constructor, pipelines.ts 49-51). -/
def ctxBase (input : String) (name : Option String) (items : List NamedEntry) : Props :=
  let p0 := setP [] "input" (.pvStr input)
  let p1 :=
    match name with
    | some n => setP p0 "name" (.pvStr n)
    | none => p0
  setP p1 "entries" (.pvEntries (items.map NamedEntry.entry))

/-- The named-binding loop of the SimpleContext constructor (pipelines.ts
52-56): each truthy-named item overwrites the property of that name with
the item's entry. -/
def bindNamed (items : List NamedEntry) (p : Props) : Props :=
  items.foldl
    (fun p item =>
      if truthyName item.name then setP p (item.name.getD "") (.pvEntry item.entry)
      else p) p

/-- SimpleContext constructor (pipelines.ts 48-58): build the base object,
run the named-binding loop, then assign `mtime` from composeMTime over the
CURRENT value of the `entries` property (which a binding may have
replaced). -/
def mkSimpleContext (now : Nat) (input : String) (name : Option String)
    (items : List NamedEntry) : Props :=
  let p := bindNamed items (ctxBase input name items)
  setP p "mtime" (.pvTime (composeMTimeJs now (getP p "entries")))

/-- `await context.mtime` as exec performs it. -/
def ctxMTimeOf (ctx : Props) : Except IOErr Nat :=
  match getP ctx "mtime" with
  | some (.pvTime t) => t
  | _ => .ok 0

/-- An action result: bytes, text, or a pre-built entry (rules.ts 166). -/
inductive ActionResult where
  | buf (b : Buffer)
  | str (s : String)
  | entry (e : Entry)
deriving DecidableEq

/-- A rule action: a function of the context object. -/
abbrev RuleAction := Props → Except Err ActionResult

/-- A context decorator (rules.ts 161-163). -/
abbrev Decorator := Props → Except Err Props

/-- rules.ts Rule (lines 174-194) plus the mutable `lastIndex` of its
RegExp object. -/
structure Rule where
  pattern : JsRegExp
  lastIndex : Nat
  action : Option RuleAction
  dependencies : DepGen
  decorators : List Decorator

/-- asserts.ts neitherNullNorUndefined; null and undefined both collapse
to `none` here, and the thrown TypeError carries the null message. -/
def neitherNullNorUndef {α : Type} (x : Option α) (nm : String) : Except Err α :=
  match x with
  | none => .error (.msg (nm ++ " must not be null!"))
  | some v => .ok v

/-- The Rule constructor (rules.ts 179-186): it asserts the pattern and
the dependency generator non-null BEFORE the
`dependencies || NoDependencies.instance` fallback is evaluated. -/
def mkRule (pattern : Option JsRegExp) (action : Option RuleAction)
    (dependencies : Option DepGen) (decorators : List Decorator) : Except Err Rule := do
  let p ← neitherNullNorUndef pattern "pattern"
  let _ ← neitherNullNorUndef dependencies "dependencies"
  .ok { pattern := p, lastIndex := 0, action := action
        dependencies := dependencies.getD .noDeps, decorators := decorators }

/-- Rule.evalDependencies (rules.ts 187-193): RE-executes the pattern (a
second execution, after the Pipeline's `pattern.test`) and hands the match
to the generator; `none` signals the rule does not apply. -/
def Rule.evalDependencies (r : Rule) (input : String) : Option (List NamedDep) × Nat :=
  match regexExecJs r.pattern r.lastIndex input with
  | (none, li) => (none, li)
  | (some m, li) => (some (depGenCreate r.dependencies input m), li)

/-- rules.ts RuleBuilder (211-247); the pattern is kept in compiled form. -/
structure RuleBuilder where
  pattern : JsRegExp
  action : Option RuleAction := none
  decorators : List Decorator := []
  dependencies : Option DepGen := none

/-- RuleBuilder.addDependency (rules.ts 223-227): a STRING dependency is
wrapped as the constant generator arrow `() => dependency` — so the
template-substitution branch of SimpleDependencyGeneratorAdapter is
bypassed — and generators accumulate by composition. -/
def RuleBuilder.addDependency (b : RuleBuilder)
    (dep : String ⊕ (String → RMatch → GenResult)) : RuleBuilder :=
  let gen : DepGen :=
    match dep with
    | .inl s => .simpleFn (fun _ _ => .str s)
    | .inr f => .simpleFn f
  { b with
    dependencies := some (match b.dependencies with
      | none => gen
      | some d => .comp d gen) }

/-- RuleBuilder.addDecorators (rules.ts 228-231). -/
def RuleBuilder.addDecorators (b : RuleBuilder) (ds : List Decorator) : RuleBuilder :=
  { b with decorators := b.decorators ++ ds }

/-- RuleBuilder.setAction (rules.ts 240-243). -/
def RuleBuilder.setAction (b : RuleBuilder) (a : Option RuleAction) : RuleBuilder :=
  { b with action := a }

/-- RuleBuilder.build (rules.ts 244-246): hand the accumulated parts to
the Rule constructor. -/
def RuleBuilder.build (b : RuleBuilder) : Except Err Rule :=
  mkRule (some b.pattern) b.action b.dependencies b.decorators

/-- Normalization of an action result to an Entry (pipelines.ts 197-211):
a buffer keeps its bytes, a string is UTF-8 encoded, an entry passes
through unchanged. -/
def normalizeResult (nm : String) : ActionResult → Entry
  | .buf b => { name := nm, contents := .ok b }
  | .str s => { name := nm, contents := .ok (utf8Encode s) }
  | .entry e => e

/-- The rule-selection loop of exec (pipelines.ts 149-154): test each rule
in iteration order and stop at the first success; every test performed
updates that rule's regex state. Returns the index of the winner together
with the updated rule collection. -/
def findRule (input : String) : List Rule → Option Nat × List Rule
  | [] => (none, [])
  | r :: rs =>
    match regexTestJs r.pattern r.lastIndex input with
    | (b, li) =>
      if b then (some 0, { r with lastIndex := li } :: rs)
      else
        match findRule input rs with
        | (i, rs1) => (i.map Nat.succ, { r with lastIndex := li } :: rs1)

/-- The sequential dependency-resolution loop of exec (pipelines.ts
175-183): each dependency is exec'd with its value as the target and its
truthy name as the child display name, and the results are collected in
generator order. -/
def resolveDepsWith
    (execF : List Rule → String → Option String → Except Err Entry × List Rule) :
    List Rule → List NamedDep → Except Err (List NamedEntry) × List Rule
  | rules, [] => (.ok [], rules)
  | rules, d :: ds =>
    match execF rules d.value (if truthyName d.name then d.name else none) with
    | (.error e, rules1) => (.error e, rules1)
    | (.ok ent, rules1) =>
      match resolveDepsWith execF rules1 ds with
      | (.error e, rules2) => (.error e, rules2)
      | (.ok rest, rules2) => (.ok (⟨d.name, ent⟩ :: rest), rules2)

/-- One level of Pipeline.exec (pipelines.ts 145-217): select the first
matching rule; probe the filesystem via mtimeSafe; with no rule, return
the existing file or fail with the unresolved-target error; with a rule,
re-evaluate its dependencies (failing loudly when the re-match fails),
resolve them recursively through `execPrev`, reject a null action, build
the context, decide staleness (existing mtime AND (no dependencies OR
strictly newer than the composed dependency mtime) means up to date), and
either return the existing file or run and normalize the action. The
rule's stored decorators are never consulted, exactly as in the source. -/
def execStep (fs : FS) (now : Nat)
    (execPrev : List Rule → String → Option String → Except Err Entry × List Rule)
    (rules : List Rule) (input : String) (name : Option String) :
    Except Err Entry × List Rule :=
  match findRule input rules with
  | (none, rules1) =>
    match fs.mtimeSafe input with
    | some t => (.ok (mkSimpleFileEntry fs (jsOrStr name input) input none (some t)), rules1)
    | none => (.error (.msg ("no matching rule for " ++ input)), rules1)
  | (some i, rules1) =>
    match rules1.get? i with
    | none => (.error (.msg ("no matching rule for " ++ input)), rules1)
    | some rule =>
      match rule.evalDependencies input with
      | (none, li) =>
        (.error (.msg ("invalid matching rule for " ++ input)),
          rules1.set i { rule with lastIndex := li })
      | (some rawDeps, li) =>
        match resolveDepsWith execPrev (rules1.set i { rule with lastIndex := li }) rawDeps with
        | (.error e, rules3) => (.error e, rules3)
        | (.ok entries, rules3) =>
          match rule.action with
          | none => (.error (.msg "default actions not yet supported"), rules3)
          | some act =>
            match ctxMTimeOf (mkSimpleContext now input name entries) with
            | .error e => (.error (.io e), rules3)
            | .ok depMTime =>
              if (fs.mtimeSafe input).isSome
                  && (entries.isEmpty || decide (depMTime < (fs.mtimeSafe input).getD 0)) then
                (.ok (mkSimpleFileEntry fs (jsOrStr name input) input none (fs.mtimeSafe input)),
                  rules3)
              else
                match act (mkSimpleContext now input name entries) with
                | .error e => (.error e, rules3)
                | .ok ar => (.ok (normalizeResult (jsOrStr name input) ar), rules3)

/-- Pipeline.exec with explicit fuel for its unbounded recursion: each
recursive dependency resolution runs with one unit less. -/
def exec (fs : FS) (now : Nat) : Nat → List Rule → String → Option String →
    Except Err Entry × List Rule
  | 0 => fun rules _ _ => (.error .outOfFuel, rules)
  | fuel + 1 => execStep fs now (exec fs now fuel)

/-- The entry bound by the LAST item of the list whose role name is the
truthy string `s` (later bindings overwrite earlier ones in the
SimpleContext constructor loop), or `none` when no item binds `s`. -/
def lastBound (s : String) : List NamedEntry → Option Entry
  | [] => none
  | it :: rest =>
    match lastBound s rest with
    | some e => some e
    | none =>
      if truthyName it.name && (it.name == some s) then some it.entry else none

/-- A non-global pattern that matches exactly the string `a`, capturing it
as group 1. -/
def patOnly (a : String) : JsRegExp :=
  { global := false
    matchFrom := fun s _ => if s = a then some ⟨a.length, [some a, some a]⟩ else none }

/-- A GLOBAL pattern that matches exactly the string `a` when the search
starts at index 0. -/
def patOnlyG (a : String) : JsRegExp :=
  { global := true
    matchFrom := fun s i =>
      if s = a ∧ i = 0 then some ⟨a.length, [some a, some a]⟩ else none }

/-- A pattern shaped like the compiled form of the spec's concrete
scenario `^(.*)\.min\.js$`, applied to the target "app.min.js": group 1
captures "app". -/
def patMinJs : JsRegExp :=
  { global := false
    matchFrom := fun s _ =>
      if s = "app.min.js" then some ⟨10, [some "app.min.js", some "app"]⟩ else none }

/-- A computed generator returning null: a rule built with it has zero
dependencies. -/
def genNil : DepGen := .simpleFn (fun _ _ => .nil)

/-- A computed generator yielding the single unnamed dependency `v`. -/
def genConst (v : String) : DepGen := .simpleFn (fun _ _ => .str v)

/-- A filesystem with no files at all. -/
def fsEmpty : FS :=
  { statF := fun _ => .error .enoent, readF := fun _ => .error .enoent }

/-- A filesystem whose every access fails with EACCES — a genuine I/O
failure, distinct from file absence. -/
def fsAcc : FS :=
  { statF := fun _ => .error .eacces, readF := fun _ => .error .eacces }

/-- A filesystem holding exactly the file "t" (mtime 100, bytes [1, 2]). -/
def fsOnlyT : FS :=
  { statF := fun p => if p = "t" then .ok ⟨100⟩ else .error .enoent
    readF := fun p => if p = "t" then .ok [1, 2] else .error .enoent }

/-- A filesystem for the staleness scenario: target "out" (mtime 10,
bytes [1]) and dependency "src" (mtime 5, bytes [2]). -/
def fsOutSrc : FS :=
  { statF := fun p =>
      if p = "out" then .ok ⟨10⟩ else if p = "src" then .ok ⟨5⟩ else .error .enoent
    readF := fun p =>
      if p = "out" then .ok [1] else if p = "src" then .ok [2] else .error .enoent }

/-- A decorator that sets the context's `name` field to "decorated". -/
def decSetName : Decorator :=
  fun ctx => .ok (setP ctx "name" (.pvStr "decorated"))

/-- An action that reports the context's `name` field (or "unset"). -/
def actReadName : RuleAction :=
  fun ctx => .ok (.str (match getP ctx "name" with
    | some (.pvStr s) => s
    | _ => "unset"))

/-- An action returning the fixed byte [7]. -/
def actByte7 : RuleAction := fun _ => .ok (.buf [7])

/-- The rule of the decorator scenario: it matches only "a", has no
dependencies, one decorator that renames the context, and an action that
reports the context's name. -/
def ruleDec : Rule :=
  { pattern := patOnly "a", lastIndex := 0, action := some actReadName
    dependencies := genNil, decorators := [decSetName] }

/-- A rule matching only "t" whose action is null. -/
def ruleNoAct : Rule :=
  { pattern := patOnly "t", lastIndex := 0, action := none
    dependencies := genNil, decorators := [] }

/-- A rule with a GLOBAL pattern matching "x". -/
def ruleGlob : Rule :=
  { pattern := patOnlyG "x", lastIndex := 0, action := some actByte7
    dependencies := genNil, decorators := [] }

/-- A rule with a non-global pattern matching "x". -/
def ruleNonGlob : Rule :=
  { pattern := patOnly "x", lastIndex := 0, action := some actByte7
    dependencies := genNil, decorators := [] }

/-- The staleness-scenario rule: matches only "out" and depends on the
single unnamed target "src". -/
def ruleOut : Rule :=
  { pattern := patOnly "out", lastIndex := 0, action := some actByte7
    dependencies := genConst "src", decorators := [] }

/-- A rule whose pattern matches nothing. -/
def ruleNever : Rule :=
  { pattern := { global := false, matchFrom := fun _ _ => none }, lastIndex := 0
    action := some actByte7, dependencies := genNil, decorators := [] }

/-- The builder of the template scenario: the string template "\1.js"
declared as a dependency through RuleBuilder.addDependency. -/
def bldMinJs : RuleBuilder :=
  RuleBuilder.addDependency { pattern := patMinJs } (.inl "\\1.js")

/-- An entry with mtime 5 (a resolved dependency backed by a file). -/
def entM5 : Entry :=
  { name := "d", contents := .ok [], mtimeP := some (.ok 5) }

/-- An entry with no mtime field at all. -/
def entPlain : Entry :=
  { name := "e", contents := .ok [] }

/-- An entry with mtime 9. -/
def entM9 : Entry :=
  { name := "d2", contents := .ok [], mtimeP := some (.ok 9) }

/-- The dependency entries exec resolves for the staleness scenario: the
single leaf "src" with mtime 5. -/
def entriesOutSrc : List NamedEntry :=
  [⟨none, mkSimpleFileEntry fsOutSrc "src" "src" none (some 5)⟩]

/-! Helper lemmas about the JS-object model and the mtime fold. -/

theorem getP_setP (p : Props) (k s : String) (v : PVal) :
    getP (setP p k v) s = if k = s then some v else getP p s := by
  induction p with
  | nil => rfl
  | cons head rest ih =>
    obtain ⟨k0, v0⟩ := head
    simp only [setP]
    by_cases h : k0 = k
    · subst h
      simp only [if_pos rfl, getP]
      by_cases h2 : k0 = s <;> simp [h2, getP]
    · simp only [if_neg h, getP, ih]
      by_cases h2 : k0 = s
      · have hks : ¬ (k = s) := fun hh => h (h2.trans hh.symm)
        simp [h2, hks]
      · simp [h2]

theorem getP_bindNamed (items : List NamedEntry) (p : Props) (s : String) :
    getP (bindNamed items p) s =
      match lastBound s items with
      | some e => some (.pvEntry e)
      | none => getP p s := by
  induction items generalizing p with
  | nil => rfl
  | cons it rest ih =>
    have hb : bindNamed (it :: rest) p = bindNamed rest
        (if truthyName it.name then setP p (it.name.getD "") (.pvEntry it.entry) else p) := by
      simp [bindNamed, List.foldl_cons]
    rw [hb, ih]
    cases hlb : lastBound s rest with
    | some e => simp [lastBound, hlb]
    | none =>
      simp only [lastBound, hlb]
      by_cases ht : truthyName it.name = true
      · rw [if_pos ht, getP_setP]
        cases hn : it.name with
        | none => rw [hn] at ht; simp [truthyName] at ht
        | some str =>
          rw [hn] at ht
          simp only [Option.getD_some]
          by_cases h2 : str = s
          · subst h2
            simp [ht]
          · have hbeq : ((some str == some s) : Bool) = false := by simp [h2]
            simp [h2, hbeq]
      · simp only [Bool.not_eq_true] at ht
        simp [ht]

theorem lastBound_empty_name (items : List NamedEntry) : lastBound "" items = none := by
  induction items with
  | nil => rfl
  | cons it rest ih =>
    simp only [lastBound, ih]
    cases hn : it.name with
    | none => simp [truthyName]
    | some str =>
      by_cases h : str = "" <;> simp [truthyName, h]

theorem lastBound_none_of_ne (s : String) (items : List NamedEntry)
    (h : ∀ it ∈ items, it.name ≠ some s) : lastBound s items = none := by
  induction items with
  | nil => rfl
  | cons it rest ih =>
    have hrest := ih (fun x hx => h x (List.mem_cons_of_mem it hx))
    have hhead := h it (List.mem_cons_self it rest)
    simp only [lastBound, hrest]
    cases hn : it.name with
    | none => simp [truthyName]
    | some str =>
      rw [hn] at hhead
      have : str ≠ s := fun hh => hhead (by rw [hh])
      simp [this]

theorem getP_ctxBase_entries (input : String) (name : Option String)
    (items : List NamedEntry) :
    getP (ctxBase input name items) "entries" =
      some (.pvEntries (items.map NamedEntry.entry)) := by
  cases name <;> simp [ctxBase, getP_setP]

theorem ctxMTimeOf_mkSimpleContext (now : Nat) (input : String) (name : Option String)
    (items : List NamedEntry) :
    ctxMTimeOf (mkSimpleContext now input name items) =
      composeMTimeJs now (getP (bindNamed items (ctxBase input name items)) "entries") := by
  simp [mkSimpleContext, ctxMTimeOf, getP_setP]

theorem natMaxChoice (x y : Nat) : natMax x y = x ∨ natMax x y = y := by
  unfold natMax
  split
  · exact Or.inr rfl
  · exact Or.inl rfl

theorem natLeMaxLeft (x y : Nat) : x ≤ natMax x y := by
  unfold natMax; split <;> omega

theorem natLeMaxRight (x y : Nat) : y ≤ natMax x y := by
  unfold natMax; split <;> omega

theorem maxOfList_mem (x : Nat) (xs : List Nat) : maxOfList x xs ∈ x :: xs := by
  induction xs generalizing x with
  | nil => simp [maxOfList]
  | cons y ys ih =>
    have hstep : maxOfList x (y :: ys) = maxOfList (natMax x y) ys := rfl
    rw [hstep]
    have h := ih (natMax x y)
    rcases List.mem_cons.mp h with h1 | h1
    · rw [h1]
      rcases natMaxChoice x y with hm | hm <;> rw [hm]
      · exact List.mem_cons_self x (y :: ys)
      · exact List.mem_cons_of_mem x (List.mem_cons_self y ys)
    · exact List.mem_cons_of_mem x (List.mem_cons_of_mem y h1)

theorem le_maxOfList (x : Nat) (xs : List Nat) : ∀ y ∈ x :: xs, y ≤ maxOfList x xs := by
  induction xs generalizing x with
  | nil =>
    intro y hy
    simp only [List.mem_singleton] at hy
    simp [hy, maxOfList]
  | cons z zs ih =>
    intro y hy
    have hstep : maxOfList x (z :: zs) = maxOfList (natMax x z) zs := rfl
    rw [hstep]
    have hmax : natMax x z ≤ maxOfList (natMax x z) zs :=
      ih (natMax x z) (natMax x z) (List.mem_cons_self _ _)
    rcases List.mem_cons.mp hy with h1 | h1
    · rw [h1]
      exact Nat.le_trans (natLeMaxLeft x z) hmax
    · rcases List.mem_cons.mp h1 with h2 | h2
      · rw [h2]
        exact Nat.le_trans (natLeMaxRight x z) hmax
      · exact ih (natMax x z) y (List.mem_cons_of_mem _ h2)

theorem mapMTimes_all (now : Nat) (l : List Entry) (ts : List Nat)
    (h : l.map Entry.mtimeP = ts.map (fun t => some (Except.ok t))) :
    mapMTimes now l = .ok ts := by
  induction l generalizing ts with
  | nil =>
    cases ts with
    | nil => rfl
    | cons t ts' => simp at h
  | cons e rest ih =>
    cases ts with
    | nil => simp at h
    | cons t ts' =>
      simp only [List.map_cons, List.cons.injEq] at h
      obtain ⟨h1, h2⟩ := h
      have hr := ih ts' h2
      simp only [mapMTimes, entryMTimeOrNow, h1, hr]
      rfl

/-! Claim theorems. -/

/-- C5: for a rule whose dependency is declared as a string template
through RuleBuilder.addDependency, evaluating the dependencies on the
matching target "app.min.js" yields one unnamed dependency whose value is
the RAW template "\1.js" — no capture-group substitution happens (the
builder wraps the string into a constant generator, and even the direct
string branch of the Simple adapter searches the template for the target
string rather than for placeholders). The claim's expected value "app.js"
is never produced. -/
theorem templateSubstitutionBug :
    (bldMinJs.build.map (fun r => (r.evalDependencies "app.min.js").fst))
      = .ok (some [⟨none, "\\1.js"⟩]) ∧
    depGenCreate (.simpleStr "\\1.js") "app.min.js"
        ⟨10, [some "app.min.js", some "app"]⟩ = [⟨none, "\\1.js"⟩] ∧
    "\\1.js" ≠ "app.js" := by
  refine ⟨rfl, rfl, by decide⟩

/-- C6: building a rule with NO declared dependency generator does not
succeed — the Rule constructor's non-null assertion fires on the builder's
null generator and construction throws, even though the constructor's own
dead `dependencies || NoDependencies.instance` fallback (third conjunct)
shows the intended behavior was an empty dependency sequence. -/
theorem ruleBuilderNoDepsThrows :
    (RuleBuilder.build { pattern := patOnly "x" })
      = .error (.msg "dependencies must not be null!") ∧
    (∀ r : Rule, RuleBuilder.build { pattern := patOnly "x" } ≠ .ok r) ∧
    (Rule.evalDependencies
      { pattern := patOnly "x", lastIndex := 0, action := none
        dependencies := .noDeps, decorators := [] } "x").fst = some [] := by
  refine ⟨rfl, fun r h => Except.noConfusion h, rfl⟩

/-- C1: exec never applies a rule's context decorators. On target "a",
whose rule carries one decorator that sets the context's name to
"decorated" and an action that reports the name it sees, the action
receives the undecorated context (it reports "unset"), and the result of
exec is invariant under replacing the rule's decorator list by anything
at all. -/
theorem execIgnoresDecorators :
    (exec fsEmpty 77 1 [ruleDec] "a" none).fst
      = .ok { name := "a", contents := .ok (utf8Encode "unset") } ∧
    (∀ ds, (exec fsEmpty 77 1 [{ ruleDec with decorators := ds }] "a" none).fst
      = (exec fsEmpty 77 1 [ruleDec] "a" none).fst) ∧
    "unset" ≠ "decorated" := by
  refine ⟨rfl, fun ds => rfl, by decide⟩

/-- C2 counterexample: the target "t" exists (mtime 100) and its matched
rule has zero dependencies, so the target is up to date and the claim
asserts exec returns the existing file without error; but the rule's
action is null and exec throws the missing-action error anyway (and the
error does not name the target). -/
theorem missingActionUpToDateErrs :
    fsOnlyT.statF "t" = .ok ⟨100⟩ ∧
    (exec fsOnlyT 50 1 [ruleNoAct] "t" none).fst
      = .error (.msg "default actions not yet supported") ∧
    (∀ ent, (exec fsOnlyT 50 1 [ruleNoAct] "t" none).fst ≠ .ok ent) := by
  refine ⟨rfl, rfl, fun ent h => Except.noConfusion h⟩

/-- C7 counterexample: a rule with a GLOBAL pattern matching "x" passes
the applicability test (pattern.test), which advances the regex's
lastIndex; evalDependencies then RE-executes the pattern from the new
lastIndex, fails to match, and exec raises the invalid-matching-rule
error — a rule selected as applicable failed to produce a dependency
sequence. -/
theorem globalPatternRematchFails :
    (regexTestJs ruleGlob.pattern 0 "x").fst = true ∧
    (exec fsEmpty 0 1 [ruleGlob] "x" none).fst
      = .error (.msg "invalid matching rule for x") := by
  exact ⟨rfl, rfl⟩

/-- C8 counterexample: the stat probe on "x" fails with EACCES — a genuine
I/O failure, not absence — yet exec (with no matching rule) swallows it
via mtimeSafe and raises its own unresolved-target error instead of
propagating the EACCES error unchanged. -/
theorem statErrorSwallowed :
    fsAcc.statF "x" = .error .eacces ∧
    (exec fsAcc 0 1 [] "x" none).fst = .error (.msg "no matching rule for x") ∧
    (exec fsAcc 0 1 [] "x" none).fst ≠ .error (.io .eacces) := by
  refine ⟨rfl, rfl, by decide⟩

/-- C9 counterexample: a context built from one dependency entry whose
role name is "entries" (entry mtime 5, current time 100) gets freshness
100 — the binding loop overwrites the `entries` array before composeMTime
reads it — instead of the maximum dependency mtime 5 the claim requires. -/
theorem entriesRoleBreaksFreshness :
    ctxMTimeOf (mkSimpleContext 100 "t" none [⟨some "entries", entM5⟩]) = .ok 100 ∧
    entM5.mtimeP = some (.ok 5) ∧
    (100 : Nat) ≠ 5 := by
  refine ⟨rfl, rfl, by decide⟩

/-- C10 counterexample: a dependency whose role name is the empty string
has a non-null name, yet the constructor's truthiness test skips it and no
field is bound on the context under "". -/
theorem emptyRoleNameNotBound :
    getP (mkSimpleContext 0 "t" none [⟨some "", entPlain⟩]) "" = none ∧
    (some "" : Option String) ≠ none := by
  refine ⟨rfl, by decide⟩

/-- C7 amended: applicability (pattern.test in exec) and dependency
computation (pattern.exec inside evalDependencies) are two separate
executions of the pattern; for a NON-global (stateless) pattern the two
always agree — a rule that passed the test yields a dependency sequence —
while a global pattern can pass the test and then fail evalDependencies
(see the counterexample). -/
theorem nonGlobalTestExecAgree (r : Rule) (input : String) (li : Nat)
    (h : r.pattern.global = false) :
    ((regexTestJs r.pattern li input).fst = true ↔
      ((r.evalDependencies input).fst).isSome = true) := by
  simp only [regexTestJs, regexExecJs, Rule.evalDependencies, h, Bool.false_eq_true,
    if_false]
  cases hm : r.pattern.matchFrom input 0 <;> simp [hm]

/-- C7 witness: the agreement instantiated at a concrete non-global rule
on the target "x". -/
theorem nonGlobalTestExecAgreeWitness :
    ruleNonGlob.pattern.global = false ∧
    ((regexTestJs ruleNonGlob.pattern 0 "x").fst = true ↔
      ((ruleNonGlob.evalDependencies "x").fst).isSome = true) :=
  ⟨rfl, nonGlobalTestExecAgree ruleNonGlob "x" 0 rfl⟩

/-- C8 amended: with no matching rule, a FAILING stat probe is swallowed —
exec reports the unresolved-target error rather than propagating the I/O
error — while a successful probe yields a file entry whose contents are
the unmodified outcome of the collaborator's readFile (read failures
propagate unchanged when the content promise is consumed), and whose
mtime is the probed one. -/
theorem ioErrorPropagation (fs : FS) (now fuel : Nat) (input : String)
    (name : Option String) :
    (exec fs now (fuel + 1) [] input name).fst =
      (match fs.statF input with
       | .ok st => .ok (mkSimpleFileEntry fs (jsOrStr name input) input none (some st.mtime))
       | .error _ => .error (.msg ("no matching rule for " ++ input))) ∧
    (∀ nm pth t, (mkSimpleFileEntry fs nm pth none (some t)).contents = fs.readF pth ∧
      (mkSimpleFileEntry fs nm pth none (some t)).mtimeP = some (.ok t)) := by
  constructor
  · cases hs : fs.statF input <;>
      simp [exec, execStep, findRule, FS.mtimeSafe, hs]
  · intro nm pth t
    exact ⟨rfl, rfl⟩

/-- C9 amended: provided no dependency's role name is "entries" (such a
role overwrites the entry list before composition — see the
counterexample) and every dependency entry carries an mtime, the freshness
timestamp of a constructed context is the current time when there are zero
dependency entries, and otherwise the maximum of the dependency mtimes. -/
theorem contextFreshnessAmended (now : Nat) (input : String) (name : Option String)
    (items : List NamedEntry) (ts : List Nat)
    (hroles : ∀ it ∈ items, it.name ≠ some "entries")
    (hts : items.map (fun it => it.entry.mtimeP) = ts.map (fun t => some (Except.ok t))) :
    (items = [] → ctxMTimeOf (mkSimpleContext now input name items) = .ok now) ∧
    (items ≠ [] → ∃ M, ctxMTimeOf (mkSimpleContext now input name items) = .ok M ∧
      M ∈ ts ∧ ∀ t ∈ ts, t ≤ M) := by
  have hE : getP (bindNamed items (ctxBase input name items)) "entries" =
      some (.pvEntries (items.map NamedEntry.entry)) := by
    rw [getP_bindNamed, lastBound_none_of_ne _ _ hroles]
    exact getP_ctxBase_entries input name items
  have hM := ctxMTimeOf_mkSimpleContext now input name items
  rw [hE] at hM
  constructor
  · intro h0
    subst h0
    simp [hM, composeMTimeJs]
  · intro hne
    cases items with
    | nil => exact absurd rfl hne
    | cons it rest =>
      cases ts with
      | nil => simp at hts
      | cons t ts' =>
        simp only [List.map_cons, List.cons.injEq] at hts
        obtain ⟨h1, h2⟩ := hts
        refine ⟨maxOfList t ts', ?_, ?_, ?_⟩
        · rw [hM]
          have hmm : mapMTimes now (rest.map NamedEntry.entry) = .ok ts' := by
            apply mapMTimes_all
            rw [List.map_map]
            exact h2
          simp only [List.map_cons, composeMTimeJs, entryMTimeOrNow, h1, hmm]
          rfl
        · exact maxOfList_mem t ts'
        · exact le_maxOfList t ts'

/-- C9 witness: a two-dependency context (mtimes 5 and 9, roles "d" and
unnamed, current time 100) whose freshness is 9, the maximum. -/
theorem contextFreshnessAmendedWitness :
    (∀ it ∈ [(⟨some "d", entM5⟩ : NamedEntry), ⟨none, entM9⟩], it.name ≠ some "entries") ∧
    ([(⟨some "d", entM5⟩ : NamedEntry), ⟨none, entM9⟩].map (fun it => it.entry.mtimeP)
      = [5, 9].map (fun t => some (Except.ok t))) ∧
    (([(⟨some "d", entM5⟩ : NamedEntry), ⟨none, entM9⟩] = []) →
      ctxMTimeOf (mkSimpleContext 100 "t" none [⟨some "d", entM5⟩, ⟨none, entM9⟩]) = .ok 100) ∧
    (([(⟨some "d", entM5⟩ : NamedEntry), ⟨none, entM9⟩] ≠ []) →
      ∃ M, ctxMTimeOf (mkSimpleContext 100 "t" none [⟨some "d", entM5⟩, ⟨none, entM9⟩])
        = .ok M ∧ M ∈ [5, 9] ∧ ∀ t ∈ [5, 9], t ≤ M) := by
  refine ⟨by decide, by decide, ?_⟩
  exact contextFreshnessAmended 100 "t" none [⟨some "d", entM5⟩, ⟨none, entM9⟩] [5, 9]
    (by decide) (by decide)

/-- C10 amended: a dependency is bound on the context object exactly when
its role name is non-null AND non-empty, under that name, holding the
resolved entry, with later same-named dependencies overwriting earlier
ones (and unnamed dependencies contributing nothing beyond the base
object); the empty-string role never binds; and there is no collision
guard — a binding replaces any built-in property of the same name, and in
particular a role "entries" makes that property a single entry, never the
entry list (the role "mtime" is the one exception, overwritten by the
final mtime assignment). -/
theorem namedBindingSemantics (now : Nat) (input : String) (name : Option String)
    (items : List NamedEntry) (s : String) (hs : s ≠ "mtime") :
    getP (mkSimpleContext now input name items) s =
      (match lastBound s items with
       | some e => some (.pvEntry e)
       | none => getP (ctxBase input name items) s) ∧
    lastBound "" items = none ∧
    (∀ e l, (PVal.pvEntry e) ≠ (PVal.pvEntries l)) := by
  refine ⟨?_, lastBound_empty_name items, fun e l => by simp⟩
  have hmt : ¬("mtime" = s) := fun hh => hs hh.symm
  simp only [mkSimpleContext, getP_setP, if_neg hmt]
  exact getP_bindNamed items _ s

/-- C10 witness: the binding semantics instantiated at a one-dependency
context with role "r". -/
theorem namedBindingSemanticsWitness :
    ("r" : String) ≠ "mtime" ∧
    (getP (mkSimpleContext 0 "t" none [⟨some "r", entPlain⟩]) "r" =
      (match lastBound "r" [⟨some "r", entPlain⟩] with
       | some e => some (.pvEntry e)
       | none => getP (ctxBase "t" none [⟨some "r", entPlain⟩]) "r") ∧
     lastBound "" [⟨some "r", entPlain⟩] = none ∧
     (∀ e l, (PVal.pvEntry e) ≠ (PVal.pvEntries l))) :=
  ⟨by decide, namedBindingSemantics 0 "t" none [⟨some "r", entPlain⟩] "r" (by decide)⟩

/-- C4: with no matching rule (the selection loop finds none), exec
returns the existing file as a FileEntry — contents the collaborator's
bytes for the path, mtime the probed mtime — when the stat probe
succeeds, and fails with the unresolved-target error naming the target
when it does not. -/
theorem leafResolution (fs : FS) (now fuel : Nat) (rules : List Rule)
    (input : String) (name : Option String)
    (hfind : (findRule input rules).fst = none) :
    (exec fs now (fuel + 1) rules input name).fst =
      (match fs.statF input with
       | .ok st => .ok (mkSimpleFileEntry fs (jsOrStr name input) input none (some st.mtime))
       | .error _ => .error (.msg ("no matching rule for " ++ input))) ∧
    (∀ nm pth t, (mkSimpleFileEntry fs nm pth none (some t)).contents = fs.readF pth ∧
      (mkSimpleFileEntry fs nm pth none (some t)).mtimeP = some (.ok t)) := by
  constructor
  · have hx : exec fs now (fuel + 1) rules input name =
        execStep fs now (exec fs now fuel) rules input name := rfl
    rw [hx]
    unfold execStep
    rcases hp : findRule input rules with ⟨o, rules1⟩
    rw [hp] at hfind
    simp only at hfind
    subst hfind
    cases hs : fs.statF input <;> simp [FS.mtimeSafe, hs]
  · intro nm pth t
    exact ⟨rfl, rfl⟩

/-- C4 witness: a pipeline whose single rule matches nothing, a target "t"
backed by a file with mtime 100 and bytes [1, 2]. -/
theorem leafResolutionWitness :
    (findRule "t" [ruleNever]).fst = none ∧
    ((exec fsOnlyT 0 1 [ruleNever] "t" none).fst =
      (match fsOnlyT.statF "t" with
       | .ok st => .ok (mkSimpleFileEntry fsOnlyT (jsOrStr none "t") "t" none (some st.mtime))
       | .error _ => .error (.msg ("no matching rule for " ++ "t"))) ∧
     (∀ nm pth t, (mkSimpleFileEntry fsOnlyT nm pth none (some t)).contents
        = fsOnlyT.readF pth ∧
      (mkSimpleFileEntry fsOnlyT nm pth none (some t)).mtimeP = some (.ok t))) :=
  ⟨rfl, leafResolution fsOnlyT 0 0 [ruleNever] "t" none rfl⟩

/-- C2 amended: whenever the matched rule's action is null and dependency
resolution succeeds, exec raises the fixed error "default actions not yet
supported" — unconditionally, whatever the filesystem state, so even for
an up-to-date target, and without naming the target. -/
theorem missingActionUnconditional (fs : FS) (now fuel : Nat)
    (rules rules1 rules3 : List Rule) (input : String) (name : Option String)
    (i : Nat) (rule : Rule) (rawDeps : List NamedDep) (li : Nat)
    (entries : List NamedEntry)
    (hfind : findRule input rules = (some i, rules1))
    (hget : rules1.get? i = some rule)
    (hev : rule.evalDependencies input = (some rawDeps, li))
    (hres : resolveDepsWith (exec fs now fuel) (rules1.set i { rule with lastIndex := li })
        rawDeps = (.ok entries, rules3))
    (hact : rule.action = none) :
    (exec fs now (fuel + 1) rules input name).fst =
      .error (.msg "default actions not yet supported") := by
  have hx : exec fs now (fuel + 1) rules input name =
      execStep fs now (exec fs now fuel) rules input name := rfl
  rw [hx]
  unfold execStep
  rw [hfind]
  simp only
  rw [hget]
  simp only
  rw [hev]
  simp only
  rw [hres]
  simp only
  rw [hact]

/-- C2 witness: the unconditional missing-action error on the up-to-date
target "t" (existing file, zero dependencies, null action). -/
theorem missingActionUnconditionalWitness :
    findRule "t" [ruleNoAct] = (some 0, [ruleNoAct]) ∧
    [ruleNoAct].get? 0 = some ruleNoAct ∧
    ruleNoAct.evalDependencies "t" = (some [], 0) ∧
    resolveDepsWith (exec fsOnlyT 50 0) ([ruleNoAct].set 0 { ruleNoAct with lastIndex := 0 })
      [] = (.ok [], [ruleNoAct]) ∧
    ruleNoAct.action = none ∧
    (exec fsOnlyT 50 1 [ruleNoAct] "t" none).fst =
      .error (.msg "default actions not yet supported") :=
  ⟨rfl, rfl, rfl, rfl, rfl,
    missingActionUnconditional fsOnlyT 50 0 [ruleNoAct] [ruleNoAct] [ruleNoAct] "t" none
      0 ruleNoAct [] 0 [] rfl rfl rfl rfl rfl⟩

/-- C3: for a matched rule with an action whose dependencies resolve to
`entries` with composed mtime D, exec with an existing target mtime T
skips the action — returning the existing file as a FileEntry carrying
mtime T — exactly when there are zero dependencies or T is strictly newer
than D, runs the action exactly when there are dependencies and T ≤ D,
and always runs the action when no file exists at the target. -/
theorem stalenessBoundary (fs : FS) (now fuel : Nat)
    (rules rules1 rules3 : List Rule) (input : String) (name : Option String)
    (i : Nat) (rule : Rule) (rawDeps : List NamedDep) (li : Nat)
    (entries : List NamedEntry) (act : RuleAction) (D : Nat)
    (hfind : findRule input rules = (some i, rules1))
    (hget : rules1.get? i = some rule)
    (hev : rule.evalDependencies input = (some rawDeps, li))
    (hres : resolveDepsWith (exec fs now fuel) (rules1.set i { rule with lastIndex := li })
        rawDeps = (.ok entries, rules3))
    (hact : rule.action = some act)
    (hD : ctxMTimeOf (mkSimpleContext now input name entries) = .ok D) :
    (exec fs now (fuel + 1) rules input name).fst =
      (match fs.mtimeSafe input with
       | some T =>
         if entries = [] ∨ D < T then
           .ok (mkSimpleFileEntry fs (jsOrStr name input) input none (some T))
         else (act (mkSimpleContext now input name entries)).map
           (normalizeResult (jsOrStr name input))
       | none => (act (mkSimpleContext now input name entries)).map
           (normalizeResult (jsOrStr name input))) := by
  have hx : exec fs now (fuel + 1) rules input name =
      execStep fs now (exec fs now fuel) rules input name := rfl
  rw [hx]
  unfold execStep
  rw [hfind]
  simp only
  rw [hget]
  simp only
  rw [hev]
  simp only
  rw [hres]
  simp only
  rw [hact]
  simp only
  rw [hD]
  simp only
  cases hmt : fs.mtimeSafe input with
  | none =>
    simp only [hmt, Option.isSome_none, Bool.false_and, Bool.false_eq_true, if_false]
    cases ha : act (mkSimpleContext now input name entries) <;>
      simp [ha, Except.map]
  | some T =>
    simp only [hmt, Option.isSome_some, Bool.true_and, Option.getD_some]
    by_cases hc : entries = [] ∨ D < T
    · have hb : (entries.isEmpty || decide (D < T)) = true := by
        rcases hc with h | h
        · simp [h]
        · simp [h]
      rw [hb]
      simp only [if_pos hc, if_true]
    · have h1 : entries ≠ [] := fun hh => hc (Or.inl hh)
      have h2 : ¬ D < T := fun hh => hc (Or.inr hh)
      have hb : (entries.isEmpty || decide (D < T)) = false := by
        cases entries with
        | nil => exact absurd rfl h1
        | cons a as => simp [h2]
      rw [hb]
      simp only [if_neg hc, Bool.false_eq_true, if_false]
      cases ha : act (mkSimpleContext now input name entries) <;>
        simp [ha, Except.map]

/-- C3 witness: the staleness scenario — target "out" (mtime 10) with one
dependency "src" (mtime 5): T strictly newer than D, so the action is
skipped and the existing file entry with mtime 10 is returned. -/
theorem stalenessBoundaryWitness :
    findRule "out" [ruleOut] = (some 0, [ruleOut]) ∧
    [ruleOut].get? 0 = some ruleOut ∧
    ruleOut.evalDependencies "out" = (some [⟨none, "src"⟩], 0) ∧
    resolveDepsWith (exec fsOutSrc 50 1) ([ruleOut].set 0 { ruleOut with lastIndex := 0 })
      [⟨none, "src"⟩] = (.ok entriesOutSrc, [ruleOut]) ∧
    ruleOut.action = some actByte7 ∧
    ctxMTimeOf (mkSimpleContext 50 "out" none entriesOutSrc) = .ok 5 ∧
    (exec fsOutSrc 50 2 [ruleOut] "out" none).fst =
      (match fsOutSrc.mtimeSafe "out" with
       | some T =>
         if entriesOutSrc = [] ∨ 5 < T then
           .ok (mkSimpleFileEntry fsOutSrc (jsOrStr none "out") "out" none (some T))
         else (actByte7 (mkSimpleContext 50 "out" none entriesOutSrc)).map
           (normalizeResult (jsOrStr none "out"))
       | none => (actByte7 (mkSimpleContext 50 "out" none entriesOutSrc)).map
           (normalizeResult (jsOrStr none "out"))) :=
  ⟨rfl, rfl, rfl, rfl, rfl, rfl,
    stalenessBoundary fsOutSrc 50 1 [ruleOut] [ruleOut] [ruleOut] "out" none 0 ruleOut
      [⟨none, "src"⟩] 0 entriesOutSrc actByte7 5 rfl rfl rfl rfl rfl rfl⟩

end DepPipelines
